import Mathlib

/-!
# Verification of `es-extensions` (src/index.ts)

Shallow embedding of the array-extension library.  The library attaches five
operations to `Array.prototype` (and one to `Object`):

* `amount`      — `this.filter(...args).length`
* `asyncFilter` — maps every element to
  `new Promise(res => requestIdleCallback(() => res(filter(item, i, a) ? item : NilSym)))`,
  awaits `Promise.all`, then drops every value with `item !== NilSym`;
* `asyncEach`   — same per-element wrapping around `res(forEach(item, i, a))`,
  aggregated with `Promise.allSettled`;
* `reduceKeys`  — `reduce((keyObj, item) => ({ ...keyObj, [item[key]]: item }), {})`
* `group` / `Object.groupBy` — two textually identical `reduce`s building
  `key -> array of elements`, guarded by `!(key in record)`.  The `in`
  operator walks the prototype chain, so a key naming an `Object.prototype`
  member (e.g. `"toString"`) is "in" the plain `{}` accumulator from the
  start: the reducer then calls `record[key].push(object)` on the inherited
  function/object and throws a `TypeError` — modelled by the `Except JSError`
  result of `group` / `groupBy`.

Modelling decisions (each is a direct transcription of ECMAScript semantics for
the exact expressions in the source):

* A per-element idle task is `new Promise(res => requestIdleCallback(cb))`.
  The executor only registers `cb`; `cb` runs later, outside the executor, so an
  exception thrown by the user function inside `cb` does **not** reject the
  promise — `res` is simply never called and the promise stays pending forever
  while the error escapes the idle callback.  `TaskOut.stuck` models that state.
* `res(v)` with a plain value fulfills with `v`; `res(p)` with a promise adopts
  the state of `p` (fulfill or reject).
* `Promise.all` / `Promise.allSettled` aggregate in index order (the order of
  the mapped array), independently of real-time completion order of the idle
  tasks; a forever-pending input makes the aggregate forever pending
  (`AsyncOut.neverSettles`), except that `Promise.all` still rejects if some
  other input rejects.
* `NilSym = Symbol("NIL")` is a fresh, module-private symbol: it is
  distinguishable by identity (`!==`) from every caller-supplied value, which
  the embedding renders as the dedicated constructor `FilterVal.nilSym` next to
  `FilterVal.elem` for ordinary elements.
* JS objects used as dictionaries are association lists with unique keys;
  property overwrite keeps the original key position (ECMAScript insertion
  order), property addition appends.
-/

namespace ES

variable {α β γ ε : Type}

/-- JavaScript runtime values, as far as this library inspects them:
only truthiness, strict (identity) comparison against the sentinel symbol and
display strings matter.  `sym` carries the symbol's identity (a `Nat`) and its
description string: two symbols are `===`-equal iff their identities coincide,
no matter their descriptions. -/
inductive JSVal : Type where
  | undef : JSVal
  | boolV : Bool → JSVal
  | num : Int → JSVal
  | str : String → JSVal
  | sym : Nat → String → JSVal
  deriving DecidableEq, Repr

/-- ECMAScript ToBoolean on the values of `JSVal`. -/
def truthy : JSVal → Bool
  | JSVal.undef => false
  | JSVal.boolV b => b
  | JSVal.num n => decide (n ≠ 0)
  | JSVal.str s => decide (s ≠ "")
  | JSVal.sym _ _ => true

/-- The printable form of a value (`String(v)` / how it displays); used to talk
about values that merely *print* like the sentinel. -/
def jsDisplay : JSVal → String
  | JSVal.undef => "undefined"
  | JSVal.boolV b => if b then "true" else "false"
  | JSVal.num n => toString n
  | JSVal.str s => s
  | JSVal.sym _ d => "Symbol(" ++ d ++ ")"

/-- A value flowing through `asyncFilter`'s task promises: either a caller
element, or the module-private sentinel `NilSym = Symbol("NIL")`.  Because the
symbol is created fresh by the module and never exported, it is different *by
identity* from every element the caller can pass, which the embedding captures
by making it a separate constructor. -/
inductive FilterVal (α : Type) : Type where
  | elem : α → FilterVal α
  | nilSym : FilterVal α
  deriving DecidableEq, Repr

/-- The test `item !== NilSym` from the final `.filter` of `asyncFilter`:
strict identity comparison against the sentinel symbol. -/
def notNil : FilterVal α → Bool
  | FilterVal.elem _ => true
  | FilterVal.nilSym => false

/-- What one invocation of the user-supplied predicate/callback does, as seen
from the call site: return a plain value, return a promise that later settles
to `r`, or throw synchronously. -/
inductive Invoke (ε : Type) : Type where
  | val : JSVal → Invoke ε
  | prom : Except ε JSVal → Invoke ε
  | thrown : ε → Invoke ε

/-- Final state of one per-element task promise
`new Promise(res => requestIdleCallback(cb))`:
fulfilled, rejected, or forever pending because `cb` threw before calling `res`
(the error then escapes the idle callback unobserved). -/
inductive TaskOut (ε β : Type) : Type where
  | fulfilled : β → TaskOut ε β
  | rejected : ε → TaskOut ε β
  | stuck : ε → TaskOut ε β
  deriving DecidableEq, Repr

/-- Observable outcome of an awaited aggregate promise: it resolves, rejects,
or never settles at all. -/
inductive AsyncOut (ε β : Type) : Type where
  | resolved : β → AsyncOut ε β
  | rejected : ε → AsyncOut ε β
  | neverSettles : AsyncOut ε β
  deriving DecidableEq, Repr

/-- `PromiseSettledResult`, the element type of `Promise.allSettled`'s
resolution value. -/
inductive SettledResult (ε β : Type) : Type where
  | fulfilled : β → SettledResult ε β
  | rejected : ε → SettledResult ε β
  deriving DecidableEq, Repr

/-- `Promise.all`, aggregating in index order: rejects if some input rejects,
never settles if some input is forever pending (and none rejects), otherwise
resolves with the values in input order.  (Which rejection reason surfaces when
several inputs reject is timing-dependent in JS; the model takes the first in
aggregation order.  No claim depends on the tie-break.) -/
def promiseAll : List (TaskOut ε β) → AsyncOut ε (List β)
  | [] => AsyncOut.resolved []
  | TaskOut.rejected e :: _ => AsyncOut.rejected e
  | TaskOut.stuck _ :: ts =>
      match promiseAll ts with
      | AsyncOut.rejected e => AsyncOut.rejected e
      | _ => AsyncOut.neverSettles
  | TaskOut.fulfilled v :: ts =>
      match promiseAll ts with
      | AsyncOut.resolved vs => AsyncOut.resolved (v :: vs)
      | AsyncOut.rejected e => AsyncOut.rejected e
      | AsyncOut.neverSettles => AsyncOut.neverSettles

/-- `Promise.allSettled`, aggregating in index order: never rejects; never
settles if some input promise is forever pending, otherwise resolves with one
`SettledResult` per input. -/
def promiseAllSettled : List (TaskOut ε β) → AsyncOut ε (List (SettledResult ε β))
  | [] => AsyncOut.resolved []
  | TaskOut.stuck _ :: _ => AsyncOut.neverSettles
  | TaskOut.fulfilled v :: ts =>
      match promiseAllSettled ts with
      | AsyncOut.resolved rs => AsyncOut.resolved (SettledResult.fulfilled v :: rs)
      | _ => AsyncOut.neverSettles
  | TaskOut.rejected e :: ts =>
      match promiseAllSettled ts with
      | AsyncOut.resolved rs => AsyncOut.resolved (SettledResult.rejected e :: rs)
      | _ => AsyncOut.neverSettles

/-- The settled outcome of one task, when it has one (`none` for a
forever-pending task). -/
def settleTask : TaskOut ε β → Option (SettledResult ε β)
  | TaskOut.fulfilled v => some (SettledResult.fulfilled v)
  | TaskOut.rejected e => some (SettledResult.rejected e)
  | TaskOut.stuck _ => none

/-- `this.map((item, i, a) => ...)` with the index made explicit: `mapIdxFrom f
n l` applies `f` to each element together with its index, starting at `n`. -/
def mapIdxFrom (f : α → Nat → β) : Nat → List α → List β
  | _, [] => []
  | n, x :: xs => f x n :: mapIdxFrom f (n + 1) xs

/-- Index-threaded core of `Array.prototype.filter`: keep the elements whose
predicate result is truthy. -/
def filterIdxFrom (p : α → Nat → JSVal) : Nat → List α → List α
  | _, [] => []
  | n, x :: xs =>
      if truthy (p x n) then x :: filterIdxFrom p (n + 1) xs
      else filterIdxFrom p (n + 1) xs

/-- `Array.prototype.filter` (synchronous built-in): the predicate receives
`(element, index, array)` and its result is used for its truthiness. -/
def jsFilter (arr : List α) (pred : α → Nat → List α → JSVal) : List α :=
  filterIdxFrom (fun x i => pred x i arr) 0 arr

/-- `Array.prototype.amount`: `this.filter(...args).length`. -/
def amount (arr : List α) (pred : α → Nat → List α → JSVal) : Nat :=
  (jsFilter arr pred).length

/-- One `asyncFilter` task: `requestIdleCallback(() => res(filter(item, i, a) ? item : NilSym))`.
A synchronous throw of the predicate happens inside the idle callback, before
`res` runs, so the task promise stays pending (`stuck`).  A returned promise is
an object and hence truthy, so `res(item)` runs without awaiting it. -/
def filterTaskOut : Invoke ε → α → TaskOut ε (FilterVal α)
  | Invoke.thrown e, _ => TaskOut.stuck e
  | Invoke.val v, item =>
      TaskOut.fulfilled (if truthy v then FilterVal.elem item else FilterVal.nilSym)
  | Invoke.prom _, item => TaskOut.fulfilled (FilterVal.elem item)

/-- `Array.prototype.asyncFilter`: map every element to an idle task, await
`Promise.all`, then `.filter((item) => item !== NilSym)`. -/
def asyncFilter (arr : List α) (pred : α → Nat → List α → Invoke ε) :
    AsyncOut ε (List (FilterVal α)) :=
  match promiseAll (mapIdxFrom (fun x i => filterTaskOut (pred x i arr) x) 0 arr) with
  | AsyncOut.resolved vs => AsyncOut.resolved (vs.filter notNil)
  | AsyncOut.rejected e => AsyncOut.rejected e
  | AsyncOut.neverSettles => AsyncOut.neverSettles

/-- One `asyncEach` task: `requestIdleCallback(() => res(forEach(item, i, a)))`.
A synchronous throw leaves the promise pending (`stuck`); `res` applied to a
returned promise adopts its state, so a rejecting returned promise rejects the
task. -/
def eachTaskOut : Invoke ε → TaskOut ε JSVal
  | Invoke.thrown e => TaskOut.stuck e
  | Invoke.val v => TaskOut.fulfilled v
  | Invoke.prom (Except.ok v) => TaskOut.fulfilled v
  | Invoke.prom (Except.error e) => TaskOut.rejected e

/-- `Array.prototype.asyncEach`: map every element to an idle task and await
`Promise.allSettled`. -/
def asyncEach (arr : List α) (cb : α → Nat → List α → Invoke ε) :
    AsyncOut ε (List (SettledResult ε JSVal)) :=
  promiseAllSettled (mapIdxFrom (fun x i => eachTaskOut (cb x i arr)) 0 arr)

/-- A record (plain JS object) with string-valued fields, as in the spec's
`reduceKeys` / `group` scenarios; an association list of `field ↦ value` in
property insertion order. -/
abbrev JSRec : Type := List (String × String)

/-- `item[key]` followed by property-key coercion: the value of field `key`,
or `"undefined"` when the field is absent (an absent field reads `undefined`,
which coerces to the property key `"undefined"`). -/
def getFieldStr (r : JSRec) (k : String) : String :=
  match r.find? (fun p => p.1 == k) with
  | some p => p.2
  | none => "undefined"

/-- Property read `o[k]` on a dictionary object. -/
def lookupKey : List (String × β) → String → Option β
  | [], _ => none
  | (k0, v) :: rest, k => if k0 = k then some v else lookupKey rest k

/-- The object update performed by `{ ...keyObj, [k]: v }`: overwriting an
existing property keeps its original position in insertion order, a new
property is appended. -/
def jsSet : List (String × β) → String → β → List (String × β)
  | [], k, v => [(k, v)]
  | (k0, v0) :: rest, k, v =>
      if k0 = k then (k0, v) :: rest else (k0, v0) :: jsSet rest k v

/-- `Array.prototype.reduceKeys`:
`this.reduce((keyObj, item) => ({ ...keyObj, [item[key]]: item }), {})`. -/
def reduceKeys (arr : List JSRec) (key : String) : List (String × JSRec) :=
  arr.foldl (fun keyObj item => jsSet keyObj (getFieldStr item key) item) []

/-- Spec-side characterization used to state last-write-wins for `reduceKeys`:
the *last* element of `arr` whose `key` field reads `k` (later elements sit in
the tail, so the tail's answer is preferred). -/
def lastWithKey : List JSRec → String → String → Option JSRec
  | [], _, _ => none
  | it :: rest, key, k =>
      match lastWithKey rest key k with
      | some r => some r
      | none => if getFieldStr it key = k then some it else none

/-- The error a JS operation can throw at runtime; the group reducers throw a
`TypeError` when `record[key].push` resolves `record[key]` to a value inherited
from `Object.prototype` (a function or object with no `push` method). -/
inductive JSError : Type where
  | typeError : JSError
  deriving DecidableEq, Repr

/-- The string-keyed properties of `Object.prototype`, inherited by the plain
`{}` accumulator that `group` / `Object.groupBy` start their `reduce` with. -/
def protoKeys : List String :=
  ["constructor", "hasOwnProperty", "isPrototypeOf", "propertyIsEnumerable",
    "toLocaleString", "toString", "valueOf", "__proto__", "__defineGetter__",
    "__defineSetter__", "__lookupGetter__", "__lookupSetter__"]

/-- The `key in record` test on the `{}`-born accumulator: the `in` operator
walks the prototype chain, so it is true both for own properties and for the
properties inherited from `Object.prototype`. -/
def keyInRecord (record : List (String × β)) (k : String) : Bool :=
  (lookupKey record k).isSome || protoKeys.contains k

/-- `record[key].push(object)` when `key` is an own property: the array is
extended in place and the key keeps its position in insertion order. -/
def pushOwn : List (String × List α) → String → α → List (String × List α)
  | [], _, _ => []
  | (k0, xs) :: rest, k, x =>
      if k0 = k then (k0, xs ++ [x]) :: rest else (k0, xs) :: pushOwn rest k x

/-- The accumulator step of `group`:
`if (!(key in record)) record[key] = [object]; else record[key].push(object)`.
When `key` is neither own nor inherited, a fresh own property holding `[x]` is
appended (insertion order).  Otherwise `record[key]` is read: an own property
yields the accumulated array and the push succeeds in place, while a key only
inherited from `Object.prototype` (e.g. `"toString"`) yields an inherited
function or object without a `push` method, so the call throws a `TypeError`. -/
def recInsert (record : List (String × List α)) (k : String) (x : α) :
    Except JSError (List (String × List α)) :=
  if !(keyInRecord record k) then
    Except.ok (record ++ [(k, [x])])
  else
    match lookupKey record k with
    | some _ => Except.ok (pushOwn record k x)
    | none => Except.error JSError.typeError

/-- The `reduce` loop of `Array.prototype.group`, with the element index made
explicit (`callbackfn(object, index)`); a thrown `TypeError` aborts the fold
and propagates out of `group`. -/
def groupFrom (f : α → Nat → String) : Nat → List (String × List α) → List α →
    Except JSError (List (String × List α))
  | _, record, [] => Except.ok record
  | n, record, x :: xs =>
      match recInsert record (f x n) x with
      | Except.ok record2 => groupFrom f (n + 1) record2 xs
      | Except.error e => Except.error e

/-- `Array.prototype.group`. -/
def group (arr : List α) (f : α → Nat → String) :
    Except JSError (List (String × List α)) :=
  groupFrom f 0 [] arr

/-- Own-property push for `Object.groupBy` — a separate, textually identical
copy, mirroring the duplicated source. -/
def groupByPushOwn : List (String × List α) → String → α → List (String × List α)
  | [], _, _ => []
  | (k0, xs) :: rest, k, x =>
      if k0 = k then (k0, xs ++ [x]) :: rest else (k0, xs) :: groupByPushOwn rest k x

/-- The accumulator step of `Object.groupBy` (duplicated implementation), with
the same prototype-chain `in` check and `TypeError` path as `recInsert`. -/
def groupByInsert (record : List (String × List α)) (k : String) (x : α) :
    Except JSError (List (String × List α)) :=
  if !(keyInRecord record k) then
    Except.ok (record ++ [(k, [x])])
  else
    match lookupKey record k with
    | some _ => Except.ok (groupByPushOwn record k x)
    | none => Except.error JSError.typeError

/-- The `reduce` loop of `Object.groupBy` (duplicated implementation). -/
def groupByFrom (f : α → Nat → String) : Nat → List (String × List α) → List α →
    Except JSError (List (String × List α))
  | _, record, [] => Except.ok record
  | n, record, x :: xs =>
      match groupByInsert record (f x n) x with
      | Except.ok record2 => groupByFrom f (n + 1) record2 xs
      | Except.error e => Except.error e

/-- `Object.groupBy`. -/
def groupBy (arr : List α) (f : α → Nat → String) :
    Except JSError (List (String × List α)) :=
  groupByFrom f 0 [] arr

/-- Spec-side characterization for `group`: the elements assigned key `k`, in
input order (indices threaded from `n`). -/
def keyFilterFrom (f : α → Nat → String) (k : String) : Nat → List α → List α
  | _, [] => []
  | n, x :: xs =>
      if f x n = k then x :: keyFilterFrom f k (n + 1) xs
      else keyFilterFrom f k (n + 1) xs

/-- Spec-side count, following the spec's words for `amount`: the number of
elements whose predicate result is truthy. -/
def countMatchingFrom (p : α → Nat → JSVal) : Nat → List α → Nat
  | _, [] => 0
  | n, x :: xs => (if truthy (p x n) then 1 else 0) + countMatchingFrom p (n + 1) xs

/-- Spec-side count of matching elements, with the `(element, index, array)`
calling convention of the library. -/
def countMatching (arr : List α) (pred : α → Nat → List α → JSVal) : Nat :=
  countMatchingFrom (fun x i => pred x i arr) 0 arr

/-! ## Helper lemmas about the fan-out/fan-in combinators -/

lemma mapIdxFrom_length (f : α → Nat → β) (l : List α) :
    ∀ n, (mapIdxFrom f n l).length = l.length := by
  induction l with
  | nil => intro n; rfl
  | cons x xs ih => intro n; simp [mapIdxFrom, ih (n + 1)]

lemma mapIdxFrom_getq (f : α → Nat → β) (l : List α) :
    ∀ n i, (mapIdxFrom f n l).get? i = (l.get? i).map (fun x => f x (n + i)) := by
  induction l with
  | nil => intro n i; simp [mapIdxFrom]
  | cons x xs ih =>
      intro n i
      cases i with
      | zero => simp [mapIdxFrom]
      | succ j =>
          have harith : n + 1 + j = n + (j + 1) := by omega
          show (mapIdxFrom f (n + 1) xs).get? j =
            (xs.get? j).map (fun x => f x (n + (j + 1)))
          rw [ih (n + 1) j, harith]

lemma promiseAll_mapIdx_fulfilled (f : α → Nat → TaskOut ε β) (g : α → Nat → β)
    (hfg : ∀ x i, f x i = TaskOut.fulfilled (g x i)) (l : List α) :
    ∀ n, promiseAll (mapIdxFrom f n l) = AsyncOut.resolved (mapIdxFrom g n l) := by
  induction l with
  | nil => intro n; rfl
  | cons x xs ih => intro n; simp [mapIdxFrom, hfg, promiseAll, ih (n + 1)]

lemma filter_notNil_mapIdx (g : α → Nat → FilterVal α) (q : α → Nat → JSVal)
    (hg : ∀ x i, g x i = if truthy (q x i) then FilterVal.elem x else FilterVal.nilSym)
    (l : List α) :
    ∀ n, (mapIdxFrom g n l).filter notNil = (filterIdxFrom q n l).map FilterVal.elem := by
  induction l with
  | nil => intro n; rfl
  | cons x xs ih =>
      intro n
      by_cases h : truthy (q x n) <;>
        simp [mapIdxFrom, filterIdxFrom, hg, h, List.filter_cons, notNil, ih (n + 1)]

lemma mapIdxFrom_constIdx (h : α → β) (l : List α) :
    ∀ n, mapIdxFrom (fun x _ => h x) n l = l.map h := by
  induction l with
  | nil => intro n; rfl
  | cons x xs ih => intro n; simp [mapIdxFrom, ih (n + 1)]

lemma filter_notNil_map_elem (l : List α) :
    (l.map FilterVal.elem).filter notNil = l.map FilterVal.elem := by
  induction l with
  | nil => rfl
  | cons x xs ih => simp [List.filter_cons, notNil, ih]

/-! ## Claims about the Async Filter Engine -/

/-- Claim C1: for every finite input array and every synchronous predicate that
never throws, `asyncFilter` resolves to exactly the sequence the built-in
synchronous `filter` produces on the same array and predicate, kept elements in
original relative order; in particular on `[1,2,3,4,5]` with `x -> x % 2 == 0`
it resolves to `[2,4]`. -/
theorem asyncFilter_agrees_with_filter :
    (∀ (α ε : Type) (arr : List α) (q : α → Nat → List α → JSVal),
        @asyncFilter α ε arr (fun x i a => Invoke.val (q x i a)) =
          AsyncOut.resolved ((jsFilter arr q).map FilterVal.elem))
    ∧ @asyncFilter Int String [1, 2, 3, 4, 5]
        (fun x _ _ => Invoke.val (JSVal.boolV (decide (x % 2 = 0)))) =
        AsyncOut.resolved [FilterVal.elem 2, FilterVal.elem 4] := by
  constructor
  · intro α ε arr q
    have h1 := promiseAll_mapIdx_fulfilled
      ((fun x i => filterTaskOut (Invoke.val (q x i arr)) x) :
        α → Nat → TaskOut ε (FilterVal α))
      (fun x i => if truthy (q x i arr) then FilterVal.elem x else FilterVal.nilSym)
      (fun x i => rfl) arr 0
    have h2 := filter_notNil_mapIdx
      (fun x i => if truthy (q x i arr) then FilterVal.elem x else FilterVal.nilSym)
      (fun x i => q x i arr) (fun x i => rfl) arr 0
    simp only [asyncFilter, h1, h2, jsFilter]
  · decide

/-- Claim C2 (the code diverges from it): evaluation at the failing input.  A
predicate that throws synchronously does **not** reject `asyncFilter` — the
throw happens inside the idle callback before `res` runs, so the operation
never settles; and a predicate whose returned promise rejects is never awaited:
the promise object is truthy, the element is kept, and the operation resolves
normally. -/
theorem asyncFilter_error_behavior_at_failing_input :
    @asyncFilter Int String [1] (fun _ _ _ => Invoke.thrown "boom") =
      AsyncOut.neverSettles
    ∧ @asyncFilter Int String [2] (fun _ _ _ => Invoke.prom (Except.error "boom")) =
        AsyncOut.resolved [FilterVal.elem 2] :=
  ⟨rfl, rfl⟩

/-- Claim C6: when the predicate is asynchronous (returns a promise),
`asyncFilter` resolves to a copy of the entire input array, whatever the
returned promise would fulfill or reject with, because the unawaited promise
object itself is truthy. -/
theorem asyncFilter_async_predicate_keeps_all :
    ∀ (α ε : Type) (arr : List α) (r : α → Nat → List α → Except ε JSVal),
      asyncFilter arr (fun x i a => Invoke.prom (r x i a)) =
        AsyncOut.resolved (arr.map FilterVal.elem) := by
  intro α ε arr r
  have h1 := promiseAll_mapIdx_fulfilled
    (fun x i => filterTaskOut (Invoke.prom (r x i arr)) x)
    (fun x _ => FilterVal.elem x) (fun x i => rfl) arr 0
  simp only [asyncFilter, h1, mapIdxFrom_constIdx, filter_notNil_map_elem]

/-- Claim C5: the sentinel never appears in an `asyncFilter` result (every
element of a resolved result passes the identity test `item !== NilSym`), and
sentinel detection is by identity, not structural equality: elements whose
printable form coincides with the sentinel's `"Symbol(NIL)"` — a string, or a
distinct symbol with the same description — are kept, not dropped. -/
theorem asyncFilter_sentinel_identity :
    (∀ (α ε : Type) (arr : List α) (pred : α → Nat → List α → Invoke ε)
        (l : List (FilterVal α)),
        asyncFilter arr pred = AsyncOut.resolved l → l.all notNil = true)
    ∧ @asyncFilter JSVal String [JSVal.str "Symbol(NIL)", JSVal.sym 1 "NIL"]
        (fun _ _ _ => Invoke.val (JSVal.boolV true)) =
        AsyncOut.resolved
          [FilterVal.elem (JSVal.str "Symbol(NIL)"), FilterVal.elem (JSVal.sym 1 "NIL")]
    ∧ jsDisplay (JSVal.str "Symbol(NIL)") = "Symbol(NIL)"
    ∧ jsDisplay (JSVal.sym 1 "NIL") = "Symbol(NIL)" := by
  refine ⟨?_, by decide, rfl, rfl⟩
  intro α ε arr pred l h
  unfold asyncFilter at h
  split at h
  · cases h
    simp only [List.all_eq_true]
    intro v hv
    exact (List.mem_filter.mp hv).2
  · exact absurd h (by simp)
  · exact absurd h (by simp)

/-- Witness for C5: instantiating the sentinel-freeness part at a concrete run
of `asyncFilter`. -/
theorem asyncFilter_sentinel_identity_witness :
    List.all [FilterVal.elem (JSVal.num 1)] notNil = true :=
  asyncFilter_sentinel_identity.1 JSVal String [JSVal.num 1]
    (fun _ _ _ => Invoke.val (JSVal.boolV true)) [FilterVal.elem (JSVal.num 1)] rfl

/-- Claim C3 (the code diverges from it): evaluation at the failing input
`[1,2,3]` with a callback that fails for the element `2` only.  If the callback
*throws synchronously*, its task promise never settles (the throw escapes the
idle callback before `res` runs), so `asyncEach` never resolves at all — no
settled-outcome list is produced.  Only when the callback *returns a rejecting
promise* does the spec's scenario hold: the outcome at that index is rejected,
the others fulfilled, and the operation resolves. -/
theorem asyncEach_throwing_callback_behavior :
    asyncEach [(1 : Int), 2, 3]
        (fun x _ _ => if x = 2 then Invoke.thrown "err" else Invoke.val JSVal.undef) =
      AsyncOut.neverSettles
    ∧ asyncEach [(1 : Int), 2, 3]
        (fun x _ _ =>
          if x = 2 then Invoke.prom (Except.error "err") else Invoke.val JSVal.undef) =
      AsyncOut.resolved
        [SettledResult.fulfilled JSVal.undef, SettledResult.rejected "err",
          SettledResult.fulfilled JSVal.undef] :=
  ⟨rfl, rfl⟩

lemma promiseAllSettled_resolved (l : List (TaskOut ε β)) :
    ∀ rs, promiseAllSettled l = AsyncOut.resolved rs →
      rs.length = l.length ∧ ∀ i : Nat, rs.get? i = (l.get? i).bind settleTask := by
  induction l with
  | nil =>
      intro rs h
      simp only [promiseAllSettled, AsyncOut.resolved.injEq] at h
      subst h
      refine ⟨rfl, ?_⟩
      intro i
      simp
  | cons t ts ih =>
      intro rs h
      cases t with
      | stuck e => simp [promiseAllSettled] at h
      | fulfilled v =>
          cases hts : promiseAllSettled ts with
          | resolved rs2 =>
              simp only [promiseAllSettled, hts, AsyncOut.resolved.injEq] at h
              subst h
              obtain ⟨hlen, hget⟩ := ih rs2 hts
              refine ⟨by simp [hlen], ?_⟩
              intro i
              cases i with
              | zero => simp [settleTask]
              | succ j => exact hget j
          | rejected e => simp [promiseAllSettled, hts] at h
          | neverSettles => simp [promiseAllSettled, hts] at h
      | rejected e =>
          cases hts : promiseAllSettled ts with
          | resolved rs2 =>
              simp only [promiseAllSettled, hts, AsyncOut.resolved.injEq] at h
              subst h
              obtain ⟨hlen, hget⟩ := ih rs2 hts
              refine ⟨by simp [hlen], ?_⟩
              intro i
              cases i with
              | zero => simp [settleTask]
              | succ j => exact hget j
          | rejected e2 => simp [promiseAllSettled, hts] at h
          | neverSettles => simp [promiseAllSettled, hts] at h

/-! ## Claims about the Async ForEach Engine -/

/-- Claim C4: whenever `asyncEach` resolves, the resulting sequence has length
exactly `N` (the input length) and the settled outcome at index `i` is exactly
the settled form of the callback's behavior on the input element at index `i`
(index-aligned, in original input order).  The witness instantiates it at a run
where every task rejects. -/
theorem asyncEach_length_and_alignment :
    ∀ (α ε : Type) (arr : List α) (cb : α → Nat → List α → Invoke ε)
      (l : List (SettledResult ε JSVal)),
      asyncEach arr cb = AsyncOut.resolved l →
        l.length = arr.length ∧
          ∀ i : Nat, l.get? i =
            (arr.get? i).bind (fun x => settleTask (eachTaskOut (cb x i arr))) := by
  intro α ε arr cb l h
  have h2 := promiseAllSettled_resolved
    (mapIdxFrom (fun x i => eachTaskOut (cb x i arr)) 0 arr) l h
  refine ⟨by rw [h2.1, mapIdxFrom_length], ?_⟩
  intro i
  have h3 := h2.2 i
  rw [mapIdxFrom_getq] at h3
  rw [h3]
  cases arr.get? i <;> simp [Nat.zero_add]

/-- Witness for C4: a concrete three-element run in which every task rejects
still resolves to an index-aligned list of length three. -/
theorem asyncEach_length_and_alignment_witness :
    ([SettledResult.rejected "E", SettledResult.rejected "E", SettledResult.rejected "E"] :
        List (SettledResult String JSVal)).length = ([1, 2, 3] : List Int).length
    ∧ ([SettledResult.rejected "E", SettledResult.rejected "E", SettledResult.rejected "E"] :
        List (SettledResult String JSVal)).get? 1 =
        (([1, 2, 3] : List Int).get? 1).bind
          (fun _ => settleTask (eachTaskOut (Invoke.prom (Except.error "E")))) := by
  have h := asyncEach_length_and_alignment Int String [1, 2, 3]
    (fun _ _ _ => Invoke.prom (Except.error "E"))
    [SettledResult.rejected "E", SettledResult.rejected "E", SettledResult.rejected "E"] rfl
  exact ⟨h.1, h.2 1⟩

/-! ## Helper lemmas about the dictionary operations -/

lemma lookupKey_jsSet (o : List (String × β)) :
    ∀ k2 v k, lookupKey (jsSet o k2 v) k = if k2 = k then some v else lookupKey o k := by
  induction o with
  | nil =>
      intro k2 v k
      simp [jsSet, lookupKey]
  | cons p rest ih =>
      obtain ⟨k0, v0⟩ := p
      intro k2 v k
      simp only [jsSet]
      by_cases h0 : k0 = k2
      · rw [if_pos h0]
        subst h0
        simp only [lookupKey]
        by_cases hk : k0 = k <;> simp [hk]
      · rw [if_neg h0]
        simp only [lookupKey]
        by_cases hk : k0 = k
        · subst hk
          rw [if_pos rfl, if_neg (fun h => h0 h.symm), if_pos rfl]
        · rw [if_neg hk, ih k2 v k]
          by_cases h2 : k2 = k <;> simp [h2, hk]

lemma lookupKey_foldl_jsSet (key : String) (arr : List JSRec) :
    ∀ (o : List (String × JSRec)) (k : String),
      lookupKey (arr.foldl (fun ko it => jsSet ko (getFieldStr it key) it) o) k =
        match lastWithKey arr key k with
        | some r => some r
        | none => lookupKey o k := by
  induction arr with
  | nil => intro o k; rfl
  | cons it rest ih =>
      intro o k
      rw [List.foldl_cons, ih]
      simp only [lastWithKey]
      cases hr : lastWithKey rest key k with
      | some r => rfl
      | none =>
          rw [lookupKey_jsSet]
          by_cases h : getFieldStr it key = k
          · rw [if_pos h, if_pos h]
          · rw [if_neg h, if_neg h]

lemma lookupKey_append_single (o : List (String × β)) (kx : String) (v : β) :
    ∀ k, lookupKey (o ++ [(kx, v)]) k =
      match lookupKey o k with
      | some w => some w
      | none => if kx = k then some v else none := by
  induction o with
  | nil => intro k; rfl
  | cons p rest ih =>
      obtain ⟨k0, v0⟩ := p
      intro k
      by_cases h : k0 = k <;> simp [lookupKey, List.cons_append, h, ih k]

lemma lookupKey_pushOwn (o : List (String × List α)) :
    ∀ kx x k, lookupKey (pushOwn o kx x) k =
      if kx = k then (lookupKey o k).map (fun gs => gs ++ [x]) else lookupKey o k := by
  induction o with
  | nil =>
      intro kx x k
      by_cases h : kx = k <;> simp [pushOwn, lookupKey, h]
  | cons p rest ih =>
      obtain ⟨k0, xs⟩ := p
      intro kx x k
      simp only [pushOwn]
      by_cases h0 : k0 = kx
      · rw [if_pos h0]
        subst h0
        simp only [lookupKey]
        by_cases hk : k0 = k <;> simp [hk]
      · rw [if_neg h0]
        simp only [lookupKey]
        by_cases hk : k0 = k
        · subst hk
          rw [if_pos rfl, if_neg (fun h => h0 h.symm), if_pos rfl]
        · rw [if_neg hk, ih kx x k]
          by_cases h2 : kx = k <;> simp [h2, hk]

lemma lookupKey_recInsert_ok (record : List (String × List α)) (kx : String) (x : α)
    (record2 : List (String × List α)) (h : recInsert record kx x = Except.ok record2) :
    ∀ k, lookupKey record2 k =
      if kx = k then some ((lookupKey record k).getD [] ++ [x])
      else lookupKey record k := by
  unfold recInsert at h
  split at h
  · rename_i hin
    have hnone : lookupKey record kx = none := by
      cases hr : lookupKey record kx with
      | none => rfl
      | some w => simp [keyInRecord, hr] at hin
    injection h with h2
    subst h2
    intro k
    rw [lookupKey_append_single]
    by_cases hk : kx = k
    · subst hk
      rw [hnone]
      simp
    · cases hr : lookupKey record k <;> simp [hr, hk]
  · split at h
    · rename_i gs hsome
      injection h with h2
      subst h2
      intro k
      rw [lookupKey_pushOwn]
      by_cases hk : kx = k
      · subst hk
        rw [if_pos rfl, if_pos rfl, hsome]
        rfl
      · rw [if_neg hk, if_neg hk]
    · exact absurd h (by simp)

lemma lookupKey_groupFrom (f : α → Nat → String) (arr : List α) :
    ∀ (n : Nat) (record g : List (String × List α)),
      groupFrom f n record arr = Except.ok g →
      ∀ k, lookupKey g k =
        match lookupKey record k with
        | some gs => some (gs ++ keyFilterFrom f k n arr)
        | none =>
            if (keyFilterFrom f k n arr).isEmpty then none
            else some (keyFilterFrom f k n arr) := by
  induction arr with
  | nil =>
      intro n record g h k
      simp only [groupFrom, Except.ok.injEq] at h
      subst h
      cases hr : lookupKey record k <;> simp [keyFilterFrom, hr]
  | cons x xs ih =>
      intro n record g h k
      simp only [groupFrom] at h
      split at h
      · rename_i record2 hstep
        rw [ih (n + 1) record2 g h k, lookupKey_recInsert_ok record (f x n) x record2 hstep k]
        simp only [keyFilterFrom]
        by_cases hfx : f x n = k
        · rw [if_pos hfx, if_pos hfx]
          cases hr : lookupKey record k with
          | some gs => simp [hr, List.append_assoc]
          | none => simp [hr]
        · rw [if_neg hfx, if_neg hfx]
      · exact absurd h (by simp)

lemma pushOwn_eq_groupByPushOwn (o : List (String × List α)) :
    ∀ k x, pushOwn o k x = groupByPushOwn o k x := by
  induction o with
  | nil => intro k x; rfl
  | cons p rest ih =>
      obtain ⟨k0, xs⟩ := p
      intro k x
      by_cases h : k0 = k <;> simp [pushOwn, groupByPushOwn, h, ih k x]

lemma recInsert_eq_groupByInsert (record : List (String × List α)) (k : String) (x : α) :
    recInsert record k x = groupByInsert record k x := by
  unfold recInsert groupByInsert
  rw [pushOwn_eq_groupByPushOwn]

lemma groupFrom_eq_groupByFrom (f : α → Nat → String) (arr : List α) :
    ∀ n record, groupFrom f n record arr = groupByFrom f n record arr := by
  induction arr with
  | nil => intro n record; rfl
  | cons x xs ih =>
      intro n record
      simp only [groupFrom, groupByFrom, recInsert_eq_groupByInsert]
      cases groupByInsert record (f x n) x with
      | ok record2 => exact ih (n + 1) record2
      | error e => rfl

lemma length_filterIdxFrom (q : α → Nat → JSVal) (l : List α) :
    ∀ n, (filterIdxFrom q n l).length = countMatchingFrom q n l := by
  induction l with
  | nil => intro n; rfl
  | cons x xs ih =>
      intro n
      by_cases h : truthy (q x n) <;>
        simp [filterIdxFrom, countMatchingFrom, h, ih (n + 1)] <;> omega

/-! ## Claims about the synchronous aggregators -/

/-- Claim C7: `reduceKeys(keyField)` maps each key to the *last* input element
whose `keyField` value is that key (last-write-wins); including the spec's
scenario and a variant whose duplicate-key records are distinguishable, so that
the overwrite is visible. -/
theorem reduceKeys_last_write_wins :
    (∀ (arr : List JSRec) (key k : String),
        lookupKey (reduceKeys arr key) k = lastWithKey arr key k)
    ∧ reduceKeys [[("id", "a")], [("id", "b")], [("id", "a")]] "id" =
        [("a", [("id", "a")]), ("b", [("id", "b")])]
    ∧ reduceKeys [[("id", "a"), ("n", "1")], [("id", "b")], [("id", "a"), ("n", "2")]] "id" =
        [("a", [("id", "a"), ("n", "2")]), ("b", [("id", "b")])] := by
  refine ⟨?_, by decide, by decide⟩
  intro arr key k
  show lookupKey (arr.foldl (fun ko it => jsSet ko (getFieldStr it key) it) []) k =
    lastWithKey arr key k
  rw [lookupKey_foldl_jsSet]
  cases lastWithKey arr key k <;> rfl

/-- Claim C8 counterexample: a callback producing the key `"toString"` —
inherited from `Object.prototype`, so `key in record` is already true at its
first occurrence — sends the reducer into `record[key].push(object)` on the
inherited function, which throws a `TypeError`: `group` produces no mapping at
all, refuting the claim's universal quantification over callbacks. -/
theorem group_throws_on_proto_key :
    group [(1 : Int)] (fun _ _ => "toString") = Except.error JSError.typeError := rfl

/-- Claim C8 (amended): whenever `group` returns a record — it instead throws a
`TypeError` as soon as the callback produces a key inherited from
`Object.prototype`, see the counterexample — that record maps each key to
exactly the ordered sequence of the elements assigned that key, preserving each
group's internal insertion order, and contains a key iff some element was
assigned to it.  Includes the spec's scenario. -/
theorem group_orders_by_key :
    (∀ (α : Type) (arr : List α) (f : α → Nat → String) (g : List (String × List α)),
        group arr f = Except.ok g →
        ∀ k : String, lookupKey g k =
          if (keyFilterFrom f k 0 arr).isEmpty then none
          else some (keyFilterFrom f k 0 arr))
    ∧ group [[("type", "x"), ("v", "1")], [("type", "y"), ("v", "2")],
          [("type", "x"), ("v", "3")]] (fun r _ => getFieldStr r "type") =
        Except.ok
          [("x", [[("type", "x"), ("v", "1")], [("type", "x"), ("v", "3")]]),
            ("y", [[("type", "y"), ("v", "2")]])] := by
  refine ⟨?_, rfl⟩
  intro α arr f g h k
  exact lookupKey_groupFrom f arr 0 [] g h k

/-- Witness for C8: instantiating the returned-record part at a concrete
successful run of `group`. -/
theorem group_orders_by_key_witness :
    lookupKey [("a", [(1 : Int)])] "a" =
      if (keyFilterFrom (fun (_ : Int) (_ : Nat) => "a") "a" 0 [(1 : Int)]).isEmpty then none
      else some (keyFilterFrom (fun (_ : Int) (_ : Nat) => "a") "a" 0 [(1 : Int)]) :=
  group_orders_by_key.1 Int [1] (fun _ _ => "a") [("a", [1])] rfl "a"

/-- Claim C9: `amount` returns the count of elements matching the predicate,
equal to the length of the synchronous filter of the array by that predicate
(it delegates to `filter(...).length`; the model is synchronous — no promise
type appears in its result). -/
theorem amount_counts_matches :
    ∀ (α : Type) (arr : List α) (pred : α → Nat → List α → JSVal),
      amount arr pred = (jsFilter arr pred).length ∧
        amount arr pred = countMatching arr pred := by
  intro α arr pred
  exact ⟨rfl, length_filterIdxFrom (fun x i => pred x i arr) arr 0⟩

/-- Claim C10: `Array.prototype.group` and `Object.groupBy` — two separately
written, textually duplicated implementations — compute the same function. -/
theorem group_eq_groupBy :
    ∀ (α : Type) (arr : List α) (f : α → Nat → String), group arr f = groupBy arr f := by
  intro α arr f
  exact groupFrom_eq_groupByFrom f arr 0 []

end ES
